import Mathlib

/-!
Shallow embedding of the TWSE chip-data service (`app/services/twse.py`):
the resilient fetch client `_fetch_json`, the two parsers
`parse_chip_summary` and `parse_stock_chip_data`, and the lookup
`get_stock_detail`, together with theorems settling the specification
claims about them.

JSON cells of the upstream row table are modelled by `Cell` (a string, a
number, or null), and the Python exceptions that the parsing code can
raise and catch are modelled by `PyExn`.  Operations that Python performs
on cells (`.strip()`, `.replace(",","")` followed by `int(...)`,
truthiness tests) are modelled as functions on `Cell` that raise
`attributeError` on a cell of the wrong type, exactly as CPython does.
-/

namespace TWSE

/-- Python exceptions that occur in the parsing code:
`int(...)` on a malformed string raises `ValueError`, attribute access
(`.strip()` / `.replace(...)`) on a non-string raises `AttributeError`,
and out-of-range indexing raises `IndexError`. -/
inductive PyExn where
  | valueError
  | attributeError
  | indexError
deriving DecidableEq, Repr

/-- One cell of the upstream row table: a JSON string, a JSON number
(integral, as the service only meets integers), or JSON null. -/
inductive Cell where
  | str (s : String)
  | num (n : Int)
  | null
deriving DecidableEq, Repr

/-- Characters stripped by Python's `str.strip()` (whitespace). -/
def pyStripChars (cs : List Char) : List Char :=
  ((cs.dropWhile Char.isWhitespace).reverse.dropWhile Char.isWhitespace).reverse

/-- Model of Python's `str.strip()`. -/
def pyStrip (s : String) : String :=
  ⟨pyStripChars s.data⟩

/-- Digit-run parser backing `pyInt?`: all characters must be decimal
digits and there must be at least one. -/
def parseDigits (cs : List Char) : Option Nat :=
  if cs.isEmpty then none
  else if cs.all Char.isDigit then
    some (cs.foldl (fun n c => 10 * n + (c.toNat - 48)) 0)
  else none

/-- Model of Python's `int(s)` on a string: surrounding whitespace is
ignored, an optional sign is allowed, then a non-empty run of decimal
digits; anything else raises `ValueError` (here: `none`). -/
def pyInt? (s : String) : Option Int :=
  match pyStripChars s.data with
  | '+' :: rest => (parseDigits rest).map Int.ofNat
  | '-' :: rest => (parseDigits rest).map (fun n => -(n : Int))
  | rest => (parseDigits rest).map Int.ofNat

/-- Model of Python's truthiness on a cell: the empty string, the number
zero and null are falsy, everything else is truthy. -/
def cellTruthy : Cell → Bool
  | .str s => !s.isEmpty
  | .num n => n != 0
  | .null => false

/-- Model of `s.replace(",", "")`, the thousands-separator strip the
parsers apply before `int(...)`: with a one-character pattern and an
empty replacement, Python's `str.replace` removes every occurrence of
that character. -/
def stripSeparators (s : String) : String :=
  ⟨s.data.filter (fun c => c ≠ ',')⟩

/-- Model of `cell.strip()`: attribute access on a non-string raises
`AttributeError`. -/
def pyStripCellE : Cell → Except PyExn String
  | .str s => .ok (pyStrip s)
  | _ => .error .attributeError

/-- Model of `int(cell.replace(",", ""))`: `.replace` on a non-string
raises `AttributeError`; `int(...)` on a malformed string raises
`ValueError`. -/
def decodeIntCellE : Cell → Except PyExn Int
  | .str s =>
    match pyInt? (stripSeparators s) with
    | some n => .ok n
    | none => .error .valueError
  | _ => .error .attributeError

/-- Model of `int(cell.replace(",", "")) if cell else 0`, the pattern the
stock parser uses for the optional buy/sell columns. -/
def optIntCellE (c : Cell) : Except PyExn Int :=
  if cellTruthy c then decodeIntCellE c else .ok 0

/-- Test used by `parse_chip_summary`: `"合計" in name` (substring
containment on the already-stripped investor name). -/
def containsMarker (name : String) : Bool :=
  decide ("合計".data <:+: name.data)

/-- The decoded JSON document returned by the TWSE endpoints: an optional
`stat` field, an optional `title`, and the row table under `data`
(`data.get("data", [])` yields `[]` when the field is absent). -/
structure Doc where
  stat : Option String := none
  title : Option String := none
  data : List (List Cell) := []
deriving DecidableEq, Repr

/-- Transport-level outcome classes of one HTTP attempt, matching the
`except` arms of `_fetch_json`: `httpx.TimeoutException`,
`httpx.HTTPStatusError`, `httpx.RequestError`, and any other exception. -/
inductive TransportErr where
  | timeout
  | httpStatus (status : Nat)
  | requestError
  | other
deriving DecidableEq, Repr

/-- Classified error carried by the `TWSEAPIError` the service raises:
one constructor per distinct message shape in `_fetch_json`. -/
inductive TWSEErr where
  | timeout
  | httpError (status : Nat)
  | requestError
  | validationError (stat : String)
  | unknown
  | requestFailed
deriving DecidableEq, Repr

/-- Classification performed by the `except` arms of `_fetch_json`:
each transport failure becomes the corresponding `TWSEAPIError`. -/
def classify : TransportErr → TWSEErr
  | .timeout => .timeout
  | .httpStatus s => .httpError s
  | .requestError => .requestError
  | .other => .unknown

/-- What one attempt of the GET yields: a decoded document, or a
transport failure. -/
inductive AttemptOutcome where
  | ok (doc : Doc)
  | err (e : TransportErr)
deriving DecidableEq, Repr

/-- Validation check of `_fetch_json`:
`if "stat" in data and data.get("stat") != "OK"` — returns the offending
`stat` value when the document fails validation. -/
def statCheck (d : Doc) : Option String :=
  match d.stat with
  | some s => if s = "OK" then none else some s
  | none => none

/-- Retry loop of `_fetch_json`, from attempt index `i` with
`fuel = max_retries - i` iterations left.  `attempts` is the oracle
giving each attempt's transport outcome.  Returns the final result and
the list of backoff delays slept, in order.  A document whose `stat`
field fails validation raises a `TWSEAPIError` that the generic
`except Exception` arm re-raises immediately (`raise e`), ending the
loop with no sleep; a transport failure on a non-final attempt sleeps
`min(base_delay * 2 ** attempt, max_delay)` and continues; a transport
failure on the final attempt raises the last classified error. -/
def fetchAux (attempts : Nat → AttemptOutcome) (base_delay max_delay : ℚ) :
    Nat → Nat → Except TWSEErr Doc × List ℚ
  | _, 0 => (.error .requestFailed, [])
  | i, fuel + 1 =>
    match attempts i with
    | .ok doc =>
      match statCheck doc with
      | some s => (.error (.validationError s), [])
      | none => (.ok doc, [])
    | .err e =>
      match fuel with
      | 0 => (.error (classify e), [])
      | fuel' + 1 =>
        let d := min (base_delay * 2 ^ i) max_delay
        let rest := fetchAux attempts base_delay max_delay (i + 1) (fuel' + 1)
        (rest.1, d :: rest.2)

/-- Model of `_fetch_json(url, timeout, max_retries, base_delay,
max_delay)`: run the retry loop from attempt 0.  The URL and per-attempt
timeout play no role in the control flow being verified; the transport
is abstracted by the `attempts` oracle. -/
def fetch_json (attempts : Nat → AttemptOutcome) (max_retries : Nat)
    (base_delay max_delay : ℚ) : Except TWSEErr Doc × List ℚ :=
  fetchAux attempts base_delay max_delay 0 max_retries

/-- One categorized investor line of the summary table. -/
structure InvestorRecord where
  name : String
  buy : Int
  sell : Int
  diff : Int
deriving DecidableEq, Repr

/-- Result of `parse_chip_summary`. -/
@[ext]
structure Summary where
  date : String
  title : String
  investors : List InvestorRecord
  total_diff : Int
deriving DecidableEq, Repr

/-- Exception classes caught by the `except (ValueError, AttributeError)`
arm inside the summary parser's per-row `try`. -/
def summaryCaught : PyExn → Bool
  | .valueError => true
  | .attributeError => true
  | .indexError => false

/-- Body of the summary parser's `try`: decode cells 1-3 of the row as
integers after stripping thousands separators. -/
def summaryTryBlock (row : List Cell) : Except PyExn (Int × Int × Int) := do
  let buy ← decodeIntCellE (row.getD 1 .null)
  let sell ← decodeIntCellE (row.getD 2 .null)
  let diff ← decodeIntCellE (row.getD 3 .null)
  pure (buy, sell, diff)

/-- One iteration of `parse_chip_summary`'s row loop, up to decoding:
rows shorter than 4 cells are skipped before anything is evaluated;
`name = row[0].strip()` is evaluated OUTSIDE the `try`, so a non-string
cell 0 raises an uncaught `AttributeError`; failures inside the `try`
(cells 1-3) are caught and skip the row. -/
def summaryRowStep (row : List Cell) : Except PyExn (Option InvestorRecord) :=
  if 4 ≤ row.length then
    match pyStripCellE (row.getD 0 .null) with
    | .error e => .error e
    | .ok name =>
      match summaryTryBlock row with
      | .ok (buy, sell, diff) => .ok (some ⟨name, buy, sell, diff⟩)
      | .error e => if summaryCaught e then .ok none else .error e
  else .ok none

/-- Accumulator of the summary row loop: the investor records appended so
far and the running `total_diff`. -/
@[ext]
structure SummaryAcc where
  investors : List InvestorRecord
  total_diff : Int
deriving DecidableEq, Repr

/-- The summary row loop: append each decoded record, and whenever the
decoded name contains the aggregate marker `"合計"`, overwrite
`total_diff` with that row's `diff`. -/
def summaryFold (acc : SummaryAcc) : List (List Cell) → Except PyExn SummaryAcc
  | [] => .ok acc
  | row :: rest => do
    match ← summaryRowStep row with
    | none => summaryFold acc rest
    | some rec =>
      summaryFold
        ⟨acc.investors ++ [rec],
         if containsMarker rec.name then rec.diff else acc.total_diff⟩
        rest

/-- Model of `TWSEService.parse_chip_summary(data, date_str)`.  The
result value is `Except` because the function CAN raise: the name strip
sits outside the per-row `try`. -/
def parse_chip_summary (data : Doc) (date_str : String) : Except PyExn Summary :=
  (summaryFold ⟨[], 0⟩ data.data).map fun acc =>
    { date := date_str
      title := data.title.getD "三大法人買賣金額統計表"
      investors := acc.investors
      total_diff := acc.total_diff }

/-- One per-stock chip record of `parse_stock_chip_data`. -/
structure StockChipRecord where
  code : String
  name : String
  foreign_buy : Int
  foreign_sell : Int
  foreign_diff : Int
  trust_buy : Int
  trust_sell : Int
  trust_diff : Int
  dealer_diff : Int
  total_diff : Int
deriving DecidableEq, Repr

/-- Exception classes caught by the
`except (ValueError, IndexError, AttributeError)` arm of the stock
parser's per-row `try`. -/
def stockCaught : PyExn → Bool
  | .valueError => true
  | .indexError => true
  | .attributeError => true

/-- Body of the stock parser's per-row `try`, in source evaluation
order: strip code and name (cells 0-1), decode the required nets
(cells 4, 10, 11+14), compute `total_diff` from cell 17 when the row has
more than 17 cells and as `foreign_diff + trust_diff + dealer_diff`
otherwise, then decode the optional buy/sell columns (cells 2-3, 8-9)
with falsy cells defaulting to 0. -/
def stockTryBlock (row : List Cell) : Except PyExn StockChipRecord := do
  let code ← pyStripCellE (row.getD 0 .null)
  let name ← pyStripCellE (row.getD 1 .null)
  let foreign_diff ← decodeIntCellE (row.getD 4 .null)
  let trust_diff ← decodeIntCellE (row.getD 10 .null)
  let dealer1 ← decodeIntCellE (row.getD 11 .null)
  let dealer2 ← decodeIntCellE (row.getD 14 .null)
  let total_diff ←
    if 17 < row.length then decodeIntCellE (row.getD 17 .null)
    else pure (foreign_diff + trust_diff + (dealer1 + dealer2))
  let foreign_buy ← optIntCellE (row.getD 2 .null)
  let foreign_sell ← optIntCellE (row.getD 3 .null)
  let trust_buy ← optIntCellE (row.getD 8 .null)
  let trust_sell ← optIntCellE (row.getD 9 .null)
  pure ⟨code, name, foreign_buy, foreign_sell, foreign_diff,
        trust_buy, trust_sell, trust_diff, dealer1 + dealer2, total_diff⟩

/-- The two dealer cells (11 and 14) decoded and summed, as in
`dealer_diff = int(row[11].replace(",", "")) + int(row[14].replace(",", ""))`. -/
def dealerSum (row : List Cell) : Except PyExn Int := do
  let dealer1 ← decodeIntCellE (row.getD 11 .null)
  let dealer2 ← decodeIntCellE (row.getD 14 .null)
  pure (dealer1 + dealer2)

/-- One iteration of the stock parser's row loop: rows shorter than 17
cells are skipped by the guard; any `ValueError`, `IndexError` or
`AttributeError` inside the `try` skips the row. -/
def stockRowStep (row : List Cell) : Except PyExn (Option StockChipRecord) :=
  if 17 ≤ row.length then
    match stockTryBlock row with
    | .ok rec => .ok (some rec)
    | .error e => if stockCaught e then .ok none else .error e
  else .ok none

/-- Record produced by an accepted stock row, `none` when the row is
skipped (by the length guard or by a caught exception). -/
def stockRowOk (row : List Cell) : Option StockChipRecord :=
  match stockRowStep row with
  | .ok o => o
  | .error _ => none

/-- The stock parser's row loop over the whole table. -/
def stocksFold : List (List Cell) → Except PyExn (List StockChipRecord)
  | [] => .ok []
  | row :: rest => do
    let o ← stockRowStep row
    let others ← stocksFold rest
    pure (match o with | some rec => rec :: others | none => others)

/-- Python's `sorted(..., key=key)` (and `reverse=True` when `desc`) is a
stable sort.  It is modelled as the unique permutation sorted by the
lexicographic order on (key, original position): `lexRel` compares keys
in the requested direction and breaks ties by original index. -/
def lexRel (key : α → Int) (desc : Bool) (a b : Nat × α) : Prop :=
  (if desc then key b.2 < key a.2 else key a.2 < key b.2) ∨
    (key a.2 = key b.2 ∧ a.1 ≤ b.1)

instance (key : α → Int) (desc : Bool) : DecidableRel (lexRel key desc) :=
  fun a b => by unfold lexRel; exact inferInstance

instance (key : α → Int) (desc : Bool) : IsTotal (Nat × α) (lexRel key desc) where
  total a b := by
    unfold lexRel
    rcases lt_trichotomy (key a.2) (key b.2) with h | h | h
    · cases desc <;> simp [h, le_of_lt h, h.ne, h.ne.symm]
    · rcases Nat.le_total a.1 b.1 with hi | hi
      · exact Or.inl (Or.inr ⟨h, hi⟩)
      · exact Or.inr (Or.inr ⟨h.symm, hi⟩)
    · cases desc <;> simp [h, le_of_lt h, h.ne, h.ne.symm]

instance (key : α → Int) (desc : Bool) : IsTrans (Nat × α) (lexRel key desc) where
  trans a b c hab hbc := by
    unfold lexRel at *
    cases desc <;>
      rcases hab with h1 | ⟨h1, h1i⟩ <;> rcases hbc with h2 | ⟨h2, h2i⟩ <;>
        simp_all <;> omega

/-- Stable sort by `key` in direction `desc`: pair each element with its
original position, sort by the (total, antisymmetric) lexicographic
order, and drop the positions. -/
def pySortedBy (key : α → Int) (desc : Bool) (l : List α) : List α :=
  (List.insertionSort (lexRel key desc) l.enum).map Prod.snd

/-- Result of `parse_stock_chip_data`. -/
structure StockListResult where
  date : String
  stocks : List StockChipRecord
  top_foreign_buy : List StockChipRecord
  top_foreign_sell : List StockChipRecord
  top_trust_buy : List StockChipRecord
  top_trust_sell : List StockChipRecord
deriving DecidableEq, Repr

/-- Model of `TWSEService.parse_stock_chip_data(data, date_str)`:
decode the row table, then build the four `sorted(...)[:10]` views. -/
def parse_stock_chip_data (data : Doc) (date_str : String) :
    Except PyExn StockListResult :=
  (stocksFold data.data).map fun stocks =>
    { date := date_str
      stocks := stocks
      top_foreign_buy := (pySortedBy (fun x => x.foreign_diff) true stocks).take 10
      top_foreign_sell := (pySortedBy (fun x => x.foreign_diff) false stocks).take 10
      top_trust_buy := (pySortedBy (fun x => x.trust_diff) true stocks).take 10
      top_trust_sell := (pySortedBy (fun x => x.trust_diff) false stocks).take 10 }

/-- Model of `TWSEService.get_stock_detail(stocks_data, stock_code)`:
linear scan over `stocks` returning the first record whose code equals
the query, `none` when there is no match. -/
def get_stock_detail (stocks_data : StockListResult) (stock_code : String) :
    Option StockChipRecord :=
  stocks_data.stocks.find? (fun stock => stock.code == stock_code)

/-! ### Behaviour of the retry loop -/

/-- When the first `fuel - 1` attempts of a window fail at transport
level and the last one returns a document passing validation, the loop
returns that document and sleeps once per failed attempt. -/
lemma fetchAux_ok_of_fail_prefix (attempts : Nat → AttemptOutcome) (base maxD : ℚ) :
    ∀ (fuel i : Nat) (doc : Doc), 0 < fuel →
      (∀ j, j < fuel - 1 → ∃ e, attempts (i + j) = .err e) →
      attempts (i + (fuel - 1)) = .ok doc →
      statCheck doc = none →
      fetchAux attempts base maxD i fuel =
        (.ok doc, (List.range (fuel - 1)).map fun k => min (base * 2 ^ (i + k)) maxD) := by
  intro fuel
  induction fuel with
  | zero => intro i doc h; omega
  | succ f ih =>
    intro i doc _ hfail hok hstat
    cases f with
    | zero =>
      rw [Nat.add_zero] at hok
      simp [fetchAux, hok, hstat]
    | succ f' =>
      obtain ⟨e, he⟩ := hfail 0 (by omega)
      rw [Nat.add_zero] at he
      have hok' : attempts (i + 1 + f') = .ok doc := by
        rw [show i + 1 + f' = i + (f' + 1 + 1 - 1) from by omega]; exact hok
      have hfail' : ∀ j, j < f' + 1 - 1 → ∃ e, attempts (i + 1 + j) = .err e := by
        intro j hj
        rw [show i + 1 + j = i + (j + 1) from by omega]
        exact hfail (j + 1) (by omega)
      have hrec := ih (i + 1) doc (by omega) hfail' hok' hstat
      simp only [fetchAux, he, hrec]
      refine Prod.ext rfl ?_
      simp only [Nat.add_sub_cancel, List.range_succ_eq_map, List.map_cons,
        List.map_map, Nat.add_zero]
      refine congrArg₂ _ rfl (List.map_congr_left ?_)
      intro k _
      simp only [Function.comp_apply, Nat.succ_eq_add_one]
      rw [show i + (k + 1) = i + 1 + k from by omega]

/-- When every attempt of a window fails at transport level, the loop
surfaces the classification of the last attempt's error and sleeps once
per non-final attempt. -/
lemma fetchAux_allFail (attempts : Nat → AttemptOutcome) (base maxD : ℚ) :
    ∀ (fuel i : Nat) (e : TransportErr), 0 < fuel →
      (∀ j, j < fuel - 1 → ∃ e, attempts (i + j) = .err e) →
      attempts (i + (fuel - 1)) = .err e →
      fetchAux attempts base maxD i fuel =
        (.error (classify e),
         (List.range (fuel - 1)).map fun k => min (base * 2 ^ (i + k)) maxD) := by
  intro fuel
  induction fuel with
  | zero => intro i e h; omega
  | succ f ih =>
    intro i e _ hfail hlast
    cases f with
    | zero =>
      rw [Nat.add_zero] at hlast
      simp [fetchAux, hlast]
    | succ f' =>
      obtain ⟨e0, he0⟩ := hfail 0 (by omega)
      rw [Nat.add_zero] at he0
      have hlast' : attempts (i + 1 + f') = .err e := by
        rw [show i + 1 + f' = i + (f' + 1 + 1 - 1) from by omega]; exact hlast
      have hfail' : ∀ j, j < f' + 1 - 1 → ∃ e, attempts (i + 1 + j) = .err e := by
        intro j hj
        rw [show i + 1 + j = i + (j + 1) from by omega]
        exact hfail (j + 1) (by omega)
      have hrec := ih (i + 1) e (by omega) hfail' hlast'
      simp only [fetchAux, he0, hrec]
      refine Prod.ext rfl ?_
      simp only [Nat.add_sub_cancel, List.range_succ_eq_map, List.map_cons,
        List.map_map, Nat.add_zero]
      refine congrArg₂ _ rfl (List.map_congr_left ?_)
      intro k _
      simp only [Function.comp_apply, Nat.succ_eq_add_one]
      rw [show i + (k + 1) = i + 1 + k from by omega]

/-- When, after `k` transport failures, an attempt returns a document
whose `stat` field fails validation, the loop raises the validation
error immediately: the remaining attempts never run and no backoff sleep
follows the offending attempt. -/
lemma fetchAux_validation (attempts : Nat → AttemptOutcome) (base maxD : ℚ) :
    ∀ (k fuel i : Nat) (doc : Doc) (s : String), k < fuel →
      (∀ j, j < k → ∃ e, attempts (i + j) = .err e) →
      attempts (i + k) = .ok doc →
      doc.stat = some s → s ≠ "OK" →
      fetchAux attempts base maxD i fuel =
        (.error (.validationError s),
         (List.range k).map fun j => min (base * 2 ^ (i + j)) maxD) := by
  intro k
  induction k with
  | zero =>
    intro fuel i doc s hk hfail hok hstat hs
    rw [Nat.add_zero] at hok
    cases fuel with
    | zero => omega
    | succ f => simp [fetchAux, hok, statCheck, hstat, hs]
  | succ k' ih =>
    intro fuel i doc s hk hfail hok hstat hs
    obtain ⟨e0, he0⟩ := hfail 0 (by omega)
    rw [Nat.add_zero] at he0
    cases fuel with
    | zero => omega
    | succ f =>
      cases f with
      | zero => omega
      | succ f' =>
        have hok' : attempts (i + 1 + k') = .ok doc := by
          rw [show i + 1 + k' = i + (k' + 1) from by omega]; exact hok
        have hfail' : ∀ j, j < k' → ∃ e, attempts (i + 1 + j) = .err e := by
          intro j hj
          rw [show i + 1 + j = i + (j + 1) from by omega]
          exact hfail (j + 1) (by omega)
        have hrec := ih (f' + 1) (i + 1) doc s (by omega) hfail' hok' hstat hs
        simp only [fetchAux, he0, hrec]
        refine Prod.ext rfl ?_
        simp only [List.range_succ_eq_map, List.map_cons, List.map_map, Nat.add_zero]
        refine congrArg₂ _ rfl (List.map_congr_left ?_)
        intro j _
        simp only [Function.comp_apply, Nat.succ_eq_add_one]
        rw [show i + (j + 1) = i + 1 + j from by omega]

/-- C5: for every `max_retries = n ≥ 1`, if the first `n - 1` attempts
fail transiently and attempt `n` succeeds (its document passes the
`stat` validation), `_fetch_json` returns the successful decoded
document and sleeps exactly `n - 1` times, the `i`-th sleep being
`min(base_delay * 2 ^ i, max_delay)` for `i = 0 .. n - 2`: pure
exponential backoff, no jitter, no sleep after the final attempt. -/
theorem fetch_retry_then_success (attempts : Nat → AttemptOutcome)
    (base maxD : ℚ) (n : Nat) (doc : Doc) (hn : 1 ≤ n)
    (hfail : ∀ i, i < n - 1 → ∃ e, attempts i = .err e)
    (hsucc : attempts (n - 1) = .ok doc)
    (hstat : statCheck doc = none) :
    fetch_json attempts n base maxD =
      (.ok doc, (List.range (n - 1)).map fun i => min (base * 2 ^ i) maxD) := by
  have h := fetchAux_ok_of_fail_prefix attempts base maxD n 0 doc (by omega)
    (by intro j hj; rw [Nat.zero_add]; exact hfail j hj)
    (by rw [Nat.zero_add]; exact hsucc) hstat
  simpa [fetch_json] using h

/-- Witness for C5: two timeouts then a clean success with
`max_retries = 3`, `base_delay = 1`, `max_delay = 10` yields the
document and the two sleeps `[1, 2]`. -/
def c5Oracle : Nat → AttemptOutcome
  | 0 => .err .timeout
  | 1 => .err .requestError
  | _ => .ok { stat := some "OK" }

theorem fetch_retry_then_success_witness :
    fetch_json c5Oracle 3 1 10 =
      (.ok { stat := some "OK" },
       (List.range 2).map fun i => min ((1 : ℚ) * 2 ^ i) 10) :=
  fetch_retry_then_success c5Oracle 1 10 3 { stat := some "OK" } (by omega)
    (fun i hi => by
      match i, hi with
      | 0, _ => exact ⟨.timeout, rfl⟩
      | 1, _ => exact ⟨.requestError, rfl⟩)
    rfl rfl

/-- C6: if all `max_retries` attempts fail at transport level,
`_fetch_json` fails with exactly the classified error of the last
attempt, whatever the earlier attempts' classifications were: earlier
errors are never surfaced. -/
theorem fetch_all_fail_last_error (attempts : Nat → AttemptOutcome)
    (base maxD : ℚ) (n : Nat) (e : TransportErr) (hn : 1 ≤ n)
    (hfail : ∀ i, i < n → ∃ e, attempts i = .err e)
    (hlast : attempts (n - 1) = .err e) :
    (fetch_json attempts n base maxD).1 = .error (classify e) := by
  have h := fetchAux_allFail attempts base maxD n 0 e (by omega)
    (by intro j hj; rw [Nat.zero_add]; exact hfail j (by omega))
    (by rw [Nat.zero_add]; exact hlast)
  simp [fetch_json, h]

/-- Witness for C6: a timeout, then an HTTP 404, then a request error —
the surfaced failure is the request error of the last attempt. -/
def c6Oracle : Nat → AttemptOutcome
  | 0 => .err .timeout
  | 1 => .err (.httpStatus 404)
  | _ => .err .requestError

theorem fetch_all_fail_last_error_witness :
    (fetch_json c6Oracle 3 1 10).1 = .error .requestError :=
  fetch_all_fail_last_error c6Oracle 1 10 3 .requestError (by omega)
    (fun i hi => by
      match i, hi with
      | 0, _ => exact ⟨.timeout, rfl⟩
      | 1, _ => exact ⟨.httpStatus 404, rfl⟩
      | 2, _ => exact ⟨.requestError, rfl⟩)
    rfl

/-- C1 counterexample: with every attempt returning a decoded body whose
`stat` is not `"OK"` and `max_retries = 3`, the claim demands two
backoff sleeps and the validation error only after all three attempts;
the code instead raises on attempt 1 with zero sleeps, because the
`TWSEAPIError` raised by the `stat` check is re-raised by the generic
`except Exception` arm (`raise e`) instead of being retried. -/
def c1Oracle : Nat → AttemptOutcome :=
  fun _ => .ok { stat := some "很抱歉, 沒有符合條件的資料!" }

theorem fetch_validation_counterexample :
    fetch_json c1Oracle 3 1 10 =
        (.error (.validationError "很抱歉, 沒有符合條件的資料!"), []) ∧
      (fetch_json c1Oracle 3 1 10).2.length ≠ 2 :=
  ⟨rfl, by simp [fetch_json, fetchAux, c1Oracle, statCheck]⟩

/-- C1 amended: a non-`"OK"` `stat` on any attempt is classified as a
validation error but is NOT retried: `_fetch_json` raises it
immediately on the attempt where it occurs, sleeping only for the
earlier transient failures and consulting no later attempt. -/
theorem fetch_validation_not_retried (attempts : Nat → AttemptOutcome)
    (base maxD : ℚ) (n k : Nat) (doc : Doc) (s : String) (hk : k < n)
    (hfail : ∀ j, j < k → ∃ e, attempts j = .err e)
    (hok : attempts k = .ok doc)
    (hstat : doc.stat = some s) (hs : s ≠ "OK") :
    fetch_json attempts n base maxD =
      (.error (.validationError s),
       (List.range k).map fun i => min (base * 2 ^ i) maxD) := by
  have h := fetchAux_validation attempts base maxD k n 0 doc s hk
    (by intro j hj; rw [Nat.zero_add]; exact hfail j hj)
    (by rw [Nat.zero_add]; exact hok) hstat hs
  simpa [fetch_json] using h

/-- Witness for the amended C1: one timeout, then a non-`"OK"` body on
attempt 2 of 3 — the validation error surfaces at once after a single
sleep. -/
def c1AmendOracle : Nat → AttemptOutcome
  | 0 => .err .timeout
  | _ => .ok { stat := some "NO_DATA" }

theorem fetch_validation_not_retried_witness :
    fetch_json c1AmendOracle 3 1 10 =
      (.error (.validationError "NO_DATA"),
       (List.range 1).map fun i => min ((1 : ℚ) * 2 ^ i) 10) :=
  fetch_validation_not_retried c1AmendOracle 1 10 3 1
    { stat := some "NO_DATA" } "NO_DATA" (by omega)
    (fun j hj => by
      match j, hj with
      | 0, _ => exact ⟨.timeout, rfl⟩)
    rfl rfl (by decide)

/-! ### Behaviour of the summary parser -/

lemma ok_bind (a : α) (f : α → Except ε β) : (Except.ok a >>= f) = f a := rfl

lemma error_bind (e : ε) (f : α → Except ε β) :
    (Except.error e >>= f : Except ε β) = Except.error e := rfl

/-- Record produced by an accepted summary row, `none` when the row is
skipped (short row, or caught decode failure in cells 1-3). -/
def summaryRowOk (row : List Cell) : Option InvestorRecord :=
  match summaryRowStep row with
  | .ok o => o
  | .error _ => none

/-- The `total_diff` the summary loop computes over a record sequence:
the `diff` of the last record whose name contains the aggregate marker,
`0` when there is none. -/
def summaryTotal (invs : List InvestorRecord) : Int :=
  match invs.reverse.find? (fun r => containsMarker r.name) with
  | some r => r.diff
  | none => 0

/-- Integer cell decoding only raises `ValueError` or `AttributeError`,
both of which the summary parser's `except` arm catches. -/
lemma decodeIntCellE_caught (c : Cell) (e : PyExn)
    (h : decodeIntCellE c = .error e) : summaryCaught e = true := by
  cases c with
  | str s =>
    cases hp : pyInt? (stripSeparators s) with
    | none =>
      simp only [decodeIntCellE, hp, Except.error.injEq] at h
      rw [← h]; rfl
    | some v => simp [decodeIntCellE, hp] at h
  | num n =>
    simp only [decodeIntCellE, Except.error.injEq] at h
    rw [← h]; rfl
  | null =>
    simp only [decodeIntCellE, Except.error.injEq] at h
    rw [← h]; rfl

/-- Errors escaping the summary parser's `try` block are caught. -/
lemma summaryTryBlock_err_caught (row : List Cell) (e : PyExn)
    (h : summaryTryBlock row = .error e) : summaryCaught e = true := by
  unfold summaryTryBlock at h
  cases h1 : decodeIntCellE (row.getD 1 .null) with
  | error e1 => rw [h1, error_bind] at h; cases h; exact decodeIntCellE_caught _ _ h1
  | ok v1 =>
    rw [h1, ok_bind] at h
    cases h2 : decodeIntCellE (row.getD 2 .null) with
    | error e2 => rw [h2, error_bind] at h; cases h; exact decodeIntCellE_caught _ _ h2
    | ok v2 =>
      rw [h2, ok_bind] at h
      cases h3 : decodeIntCellE (row.getD 3 .null) with
      | error e3 => rw [h3, error_bind] at h; cases h; exact decodeIntCellE_caught _ _ h3
      | ok v3 => rw [h3, ok_bind] at h; cases h

/-- A summary row whose cell 0 is a string (whenever the row is long
enough to be examined) never raises: the row loop step returns exactly
the record `summaryRowOk` describes. -/
lemma summaryRowStep_ok_of_str (row : List Cell)
    (h : 4 ≤ row.length → ∃ s, row.getD 0 .null = .str s) :
    summaryRowStep row = .ok (summaryRowOk row) := by
  unfold summaryRowOk summaryRowStep
  by_cases h4 : 4 ≤ row.length
  · obtain ⟨s, hs⟩ := h h4
    rw [hs]
    simp only [if_pos h4, pyStripCellE]
    cases ht : summaryTryBlock row with
    | ok v => obtain ⟨b, sl, d⟩ := v; simp only [ht]
    | error e =>
      simp only [ht, summaryTryBlock_err_caught row e ht, if_true]
  · simp only [if_neg h4]

/-- Characterization of a successful run of the summary row loop: the
records appended are exactly the per-row decodes, and `total_diff` is
the `diff` of the last appended marker row (the starting value when
there is none). -/
lemma summaryFold_spec (rows : List (List Cell)) :
    ∀ (acc acc' : SummaryAcc), summaryFold acc rows = .ok acc' →
      acc'.investors = acc.investors ++ rows.filterMap summaryRowOk ∧
      acc'.total_diff =
        (match (rows.filterMap summaryRowOk).reverse.find?
            (fun r => containsMarker r.name) with
         | some r => r.diff
         | none => acc.total_diff) := by
  induction rows with
  | nil =>
    intro acc acc' h
    rw [summaryFold, Except.ok.injEq] at h
    subst h
    simp
  | cons row rest ih =>
    intro acc acc' h
    unfold summaryFold at h
    cases hs : summaryRowStep row with
    | error e => rw [hs, error_bind] at h; cases h
    | ok o =>
      rw [hs, ok_bind] at h
      have hrowOk : summaryRowOk row = o := by unfold summaryRowOk; rw [hs]
      cases o with
      | none =>
        obtain ⟨hi, ht⟩ := ih acc acc' h
        constructor
        · rw [hi, List.filterMap_cons, hrowOk]
        · rw [ht, List.filterMap_cons, hrowOk]
      | some rec =>
        obtain ⟨hi, ht⟩ := ih _ acc' h
        constructor
        · rw [hi, List.filterMap_cons, hrowOk]; simp
        · rw [ht, List.filterMap_cons, hrowOk]
          simp only [List.reverse_cons, List.find?_append]
          cases hf : (rest.filterMap summaryRowOk).reverse.find?
              (fun r => containsMarker r.name) with
          | some r => simp [hf]
          | none =>
            simp only [hf, Option.none_or, List.find?]
            cases hm : containsMarker rec.name <;> simp [hm]

/-- Under the amended hypothesis (cell 0 of every examined row is a
string) the summary row loop cannot raise and returns exactly the
per-row decodes together with the marker total. -/
lemma summaryFold_eq (rows : List (List Cell))
    (h : ∀ row ∈ rows, 4 ≤ row.length → ∃ s, row.getD 0 .null = .str s) :
    ∀ acc : SummaryAcc,
      summaryFold acc rows =
        .ok ⟨acc.investors ++ rows.filterMap summaryRowOk,
          match (rows.filterMap summaryRowOk).reverse.find?
              (fun r => containsMarker r.name) with
          | some r => r.diff
          | none => acc.total_diff⟩ := by
  induction rows with
  | nil => intro acc; simp [summaryFold]
  | cons row rest ih =>
    intro acc
    have hstep := summaryRowStep_ok_of_str row (h row (by simp))
    have hrest := fun r hr => h r (List.mem_cons_of_mem _ hr)
    unfold summaryFold
    rw [hstep, ok_bind]
    cases ho : summaryRowOk row with
    | none =>
      dsimp only
      rw [ih hrest acc, List.filterMap_cons, ho]
    | some rec =>
      dsimp only
      rw [ih hrest _, List.filterMap_cons, ho]
      dsimp only
      refine congrArg _ (SummaryAcc.ext ?_ ?_)
      · simp
      · simp only [List.reverse_cons, List.find?_append]
        cases hf : (rest.filterMap summaryRowOk).reverse.find?
            (fun r => containsMarker r.name) with
        | some r => simp [hf]
        | none =>
          simp only [hf, Option.none_or, List.find?]
          cases hm : containsMarker rec.name <;> simp [hm]

/-- C2 counterexample: a document whose single row has a non-string
cell 0 (and 4 cells, so the row is examined).  `parse_chip_summary`
raises `AttributeError` — `name = row[0].strip()` sits OUTSIDE the
per-row `try`, so the error escapes to the caller and no
`SummaryResult` is produced, refuting "never fails". -/
def c2Doc : Doc := { data := [[.num 3, .str "1", .str "2", .str "3"]] }

theorem summary_parse_raises_counterexample :
    parse_chip_summary c2Doc "20240101" = .error .attributeError := rfl

/-- C2 amended: `parse_chip_summary` returns a `SummaryResult` for every
document and date PROVIDED every row with at least 4 cells has a string
in cell 0; under that proviso every decoding error (cells 1-3) is local
to its row, which is skipped entirely. -/
theorem summary_parse_total_of_str_cell0 (data : Doc) (date_str : String)
    (h : ∀ row ∈ data.data, 4 ≤ row.length → ∃ s, row.getD 0 .null = .str s) :
    parse_chip_summary data date_str =
      .ok { date := date_str
            title := data.title.getD "三大法人買賣金額統計表"
            investors := data.data.filterMap summaryRowOk
            total_diff := summaryTotal (data.data.filterMap summaryRowOk) } := by
  unfold parse_chip_summary
  rw [summaryFold_eq data.data h ⟨[], 0⟩]
  dsimp only [Except.map]
  refine congrArg Except.ok (Summary.ext rfl rfl ?_ ?_)
  · simp
  · rw [summaryTotal]

/-- Witness for the amended C2: a document with one good row, one row
with a malformed number (skipped), and one short row (skipped). -/
def c2GoodDoc : Doc :=
  { data := [[.str "  外資合計 ", .str "1,000", .str "2,000", .str "3,000"],
             [.str "自營商", .str "x", .str "1", .str "2"],
             [.str "短列"]] }

theorem summary_parse_total_of_str_cell0_witness :
    parse_chip_summary c2GoodDoc "20240101" =
      .ok { date := "20240101"
            title := "三大法人買賣金額統計表"
            investors := c2GoodDoc.data.filterMap summaryRowOk
            total_diff := summaryTotal (c2GoodDoc.data.filterMap summaryRowOk) } :=
  summary_parse_total_of_str_cell0 c2GoodDoc "20240101" (by
    intro row hr h4
    simp only [c2GoodDoc, List.mem_cons, List.not_mem_nil, or_false] at hr
    rcases hr with rfl | rfl | rfl
    · exact ⟨"  外資合計 ", rfl⟩
    · exact ⟨"自營商", rfl⟩
    · simp at h4)

/-- C8: for every successful summary parse, `total_diff` is the `diff`
of the last accepted row whose (trimmed) name contains the aggregate
marker `"合計"`, and `0` when no accepted row's name contains it. -/
theorem summary_total_diff_last_marker (data : Doc) (date_str : String)
    (res : Summary) (h : parse_chip_summary data date_str = .ok res) :
    res.total_diff = summaryTotal res.investors := by
  unfold parse_chip_summary at h
  cases hf : summaryFold ⟨[], 0⟩ data.data with
  | error e => rw [hf] at h; cases h
  | ok acc =>
    rw [hf] at h
    dsimp only [Except.map] at h
    cases h
    obtain ⟨hi, ht⟩ := summaryFold_spec data.data ⟨[], 0⟩ acc hf
    rw [List.nil_append] at hi
    dsimp only
    rw [ht, hi, summaryTotal]

/-- Witness for C8: two marker rows — the later one wins. -/
def c8Doc : Doc :=
  { data := [[.str "外資合計", .str "1,000", .str "2,000", .str "-1,000"],
             [.str "自營商", .str "5", .str "2", .str "3"],
             [.str "三大法人合計", .str "9", .str "4", .str "5"]] }

def c8Res : Summary :=
  { date := "20240101"
    title := "三大法人買賣金額統計表"
    investors := [⟨"外資合計", 1000, 2000, -1000⟩, ⟨"自營商", 5, 2, 3⟩,
                  ⟨"三大法人合計", 9, 4, 5⟩]
    total_diff := 5 }

theorem summary_total_diff_last_marker_witness :
    c8Res.total_diff = summaryTotal c8Res.investors :=
  summary_total_diff_last_marker c8Doc "20240101" c8Res (by rfl)

/-! ### Behaviour of the stock parser -/

lemma pure_bind_eq (a : α) (f : α → Except ε β) :
    ((pure a : Except ε α) >>= f) = f a := rfl

/-- Every exception class is caught by the stock parser's `except` arm. -/
lemma stockCaught_eq_true (e : PyExn) : stockCaught e = true := by
  cases e <;> rfl

/-- The stock row loop step never raises: it returns exactly the record
`stockRowOk` describes. -/
lemma stockRowStep_eq_ok (row : List Cell) :
    stockRowStep row = .ok (stockRowOk row) := by
  unfold stockRowOk stockRowStep
  by_cases h : 17 ≤ row.length
  · simp only [if_pos h]
    cases ht : stockTryBlock row with
    | ok rec => simp only [ht]
    | error e => simp only [ht, stockCaught_eq_true e, if_true]
  · simp only [if_neg h]

/-- The stock row loop accepts exactly the per-row decodes, in order,
and never raises. -/
lemma stocksFold_eq (rows : List (List Cell)) :
    stocksFold rows = .ok (rows.filterMap stockRowOk) := by
  induction rows with
  | nil => rfl
  | cons row rest ih =>
    unfold stocksFold
    rw [stockRowStep_eq_ok, ok_bind, ih, ok_bind, List.filterMap_cons]
    cases stockRowOk row <;> rfl

/-- Closed form of `parse_stock_chip_data`: it always succeeds, with
`stocks` the per-row decodes and the four top views built from them. -/
lemma parse_stock_chip_data_eq (data : Doc) (date_str : String) :
    parse_stock_chip_data data date_str =
      .ok { date := date_str
            stocks := data.data.filterMap stockRowOk
            top_foreign_buy :=
              (pySortedBy (fun x => x.foreign_diff) true
                (data.data.filterMap stockRowOk)).take 10
            top_foreign_sell :=
              (pySortedBy (fun x => x.foreign_diff) false
                (data.data.filterMap stockRowOk)).take 10
            top_trust_buy :=
              (pySortedBy (fun x => x.trust_diff) true
                (data.data.filterMap stockRowOk)).take 10
            top_trust_sell :=
              (pySortedBy (fun x => x.trust_diff) false
                (data.data.filterMap stockRowOk)).take 10 } := by
  unfold parse_stock_chip_data
  rw [stocksFold_eq]
  rfl

/-- Inversion of a successful stock-row decode: every required cell
decoded to the record's field, and `total_diff` came verbatim from
cell 17 exactly when the row has more than 17 cells, from the sum of
the three nets otherwise. -/
lemma stockTryBlock_inv (row : List Cell) (rec : StockChipRecord)
    (h : stockTryBlock row = .ok rec) :
    decodeIntCellE (row.getD 4 .null) = .ok rec.foreign_diff ∧
    decodeIntCellE (row.getD 10 .null) = .ok rec.trust_diff ∧
    dealerSum row = .ok rec.dealer_diff ∧
    (17 < row.length → decodeIntCellE (row.getD 17 .null) = .ok rec.total_diff) ∧
    (¬ 17 < row.length →
      rec.total_diff = rec.foreign_diff + rec.trust_diff + rec.dealer_diff) := by
  unfold stockTryBlock at h
  cases h0 : pyStripCellE (row.getD 0 .null) with
  | error e => rw [h0, error_bind] at h; cases h
  | ok code =>
  rw [h0, ok_bind] at h
  cases h1 : pyStripCellE (row.getD 1 .null) with
  | error e => rw [h1, error_bind] at h; cases h
  | ok name =>
  rw [h1, ok_bind] at h
  cases h4 : decodeIntCellE (row.getD 4 .null) with
  | error e => rw [h4, error_bind] at h; cases h
  | ok fd =>
  rw [h4, ok_bind] at h
  cases h10 : decodeIntCellE (row.getD 10 .null) with
  | error e => rw [h10, error_bind] at h; cases h
  | ok td =>
  rw [h10, ok_bind] at h
  cases h11 : decodeIntCellE (row.getD 11 .null) with
  | error e => rw [h11, error_bind] at h; cases h
  | ok d1 =>
  rw [h11, ok_bind] at h
  cases h14 : decodeIntCellE (row.getD 14 .null) with
  | error e => rw [h14, error_bind] at h; cases h
  | ok d2 =>
  rw [h14, ok_bind] at h
  have hdealer : dealerSum row = .ok (d1 + d2) := by
    unfold dealerSum; rw [h11, ok_bind, h14, ok_bind]; rfl
  by_cases hl : 17 < row.length
  · rw [if_pos hl] at h
    cases h17 : decodeIntCellE (row.getD 17 .null) with
    | error e => rw [h17, error_bind] at h; cases h
    | ok total =>
    simp only [h17, ok_bind] at h
    cases h2 : optIntCellE (row.getD 2 .null) with
    | error e => simp only [h2, error_bind] at h; cases h
    | ok fb =>
    simp only [h2, ok_bind] at h
    cases h3 : optIntCellE (row.getD 3 .null) with
    | error e => simp only [h3, error_bind] at h; cases h
    | ok fs =>
    simp only [h3, ok_bind] at h
    cases h8 : optIntCellE (row.getD 8 .null) with
    | error e => simp only [h8, error_bind] at h; cases h
    | ok tb =>
    simp only [h8, ok_bind] at h
    cases h9 : optIntCellE (row.getD 9 .null) with
    | error e => simp only [h9, error_bind] at h; cases h
    | ok ts =>
    simp only [h9, pure_bind_eq] at h
    cases h
    exact ⟨rfl, rfl, hdealer, fun _ => rfl, fun hc => absurd hl hc⟩
  · rw [if_neg hl] at h
    simp only [pure_bind_eq] at h
    cases h2 : optIntCellE (row.getD 2 .null) with
    | error e => simp only [h2, error_bind] at h; cases h
    | ok fb =>
    simp only [h2, ok_bind] at h
    cases h3 : optIntCellE (row.getD 3 .null) with
    | error e => simp only [h3, error_bind] at h; cases h
    | ok fs =>
    simp only [h3, ok_bind] at h
    cases h8 : optIntCellE (row.getD 8 .null) with
    | error e => simp only [h8, error_bind] at h; cases h
    | ok tb =>
    simp only [h8, ok_bind] at h
    cases h9 : optIntCellE (row.getD 9 .null) with
    | error e => simp only [h9, error_bind] at h; cases h
    | ok ts =>
    simp only [h9, pure_bind_eq] at h
    cases h
    exact ⟨rfl, rfl, hdealer, fun hc => absurd hc hl, fun _ => rfl⟩

/-- An accepted stock row passed the length guard and its `try` block
decoded to the accepted record. -/
lemma stockRowOk_some_inv (row : List Cell) (rec : StockChipRecord)
    (h : stockRowOk row = some rec) :
    17 ≤ row.length ∧ stockTryBlock row = .ok rec := by
  unfold stockRowOk stockRowStep at h
  by_cases hl : 17 ≤ row.length
  · rw [if_pos hl] at h
    cases ht : stockTryBlock row with
    | ok r =>
      rw [ht] at h
      have h2 : some r = some rec := h
      exact ⟨hl, by rw [Option.some.inj h2]⟩
    | error e =>
      rw [ht] at h
      cases e <;>
        exact Option.noConfusion (show (none : Option StockChipRecord) = some rec from h)
  · rw [if_neg hl] at h
    have h2 : (none : Option StockChipRecord) = some rec := h
    exact Option.noConfusion h2

/-- C9: `parse_stock_chip_data` is total over the row table: it always
returns a result, and `stocks` consists exactly of the per-row decodes —
every row that is too short, fails a numeric decode, or holds a
non-string where one is accessed (the `AttributeError` cases included,
since the code/name trimming happens inside the guarded `try`) is
skipped entirely and contributes no record. -/
theorem stock_parse_never_raises (data : Doc) (date_str : String) :
    ∃ res : StockListResult, parse_stock_chip_data data date_str = .ok res ∧
      res.stocks = data.data.filterMap stockRowOk :=
  ⟨_, parse_stock_chip_data_eq data date_str, rfl⟩

/-- C3: for every accepted stock row, `total_diff` is the verbatim
decode of cell 17 when the row has one, and exactly
`foreign_diff + trust_diff + dealer_diff` when the row has exactly 17
cells, `dealer_diff` being the sum of the decodes of cells 11 and 14. -/
theorem stock_total_diff_rule (row : List Cell) (rec : StockChipRecord)
    (h : stockRowOk row = some rec) :
    (17 < row.length → decodeIntCellE (row.getD 17 .null) = .ok rec.total_diff) ∧
    (row.length = 17 →
      rec.total_diff = rec.foreign_diff + rec.trust_diff + rec.dealer_diff) ∧
    dealerSum row = .ok rec.dealer_diff := by
  obtain ⟨hl, ht⟩ := stockRowOk_some_inv row rec h
  obtain ⟨h4, h10, hd, h17, hno⟩ := stockTryBlock_inv row rec ht
  exact ⟨h17, fun he => hno (by omega), hd⟩

/-- Witness rows for C3: an 18-cell row whose cell 17 carries the total
verbatim, and the same row truncated to 17 cells, whose total is the
computed sum 60 + 6 + 2. -/
def c3Row17 : List Cell :=
  [.str "2330", .str "台積電", .str "100", .str "40", .str "60", .null, .null,
   .null, .str "10", .str "4", .str "6", .str "3", .null, .null, .str "-1",
   .null, .null]

def c3Row18 : List Cell := c3Row17 ++ [.str "999"]

def c3Rec17 : StockChipRecord :=
  ⟨"2330", "台積電", 100, 40, 60, 10, 4, 6, 2, 68⟩

def c3Rec18 : StockChipRecord :=
  ⟨"2330", "台積電", 100, 40, 60, 10, 4, 6, 2, 999⟩

theorem stock_total_diff_rule_witness :
    decodeIntCellE (c3Row18.getD 17 .null) = .ok c3Rec18.total_diff ∧
    c3Rec17.total_diff = c3Rec17.foreign_diff + c3Rec17.trust_diff + c3Rec17.dealer_diff ∧
    dealerSum c3Row17 = .ok c3Rec17.dealer_diff :=
  ⟨(stock_total_diff_rule c3Row18 c3Rec18 (by rfl)).1 (by decide),
   (stock_total_diff_rule c3Row17 c3Rec17 (by rfl)).2.1 (by rfl),
   (stock_total_diff_rule c3Row17 c3Rec17 (by rfl)).2.2⟩

/-- C10: the computed fallback total is only for rows with exactly 17
cells — a row with 18 or more cells whose cell 17 is empty or not
parseable as an integer (after separator stripping) is skipped entirely:
it produces no record and does not appear in `stocks`. -/
theorem stock_row_bad_cell17_skipped (row : List Cell) (date_str : String)
    (h18 : 18 ≤ row.length)
    (hbad : ∀ n : Int, decodeIntCellE (row.getD 17 .null) ≠ .ok n) :
    stockRowOk row = none ∧
    parse_stock_chip_data { data := [row] } date_str =
      .ok { date := date_str, stocks := [], top_foreign_buy := [],
            top_foreign_sell := [], top_trust_buy := [], top_trust_sell := [] } := by
  have hnone : stockRowOk row = none := by
    cases ho : stockRowOk row with
    | none => rfl
    | some rec =>
      obtain ⟨hl, ht⟩ := stockRowOk_some_inv row rec ho
      obtain ⟨_, _, _, h17, _⟩ := stockTryBlock_inv row rec ht
      exact absurd (h17 (by omega)) (hbad rec.total_diff)
  refine ⟨hnone, ?_⟩
  rw [parse_stock_chip_data_eq]
  simp [hnone, pySortedBy, List.insertionSort]

/-- Witness row for C10: 18 cells, all required nets decodable, but an
empty string in cell 17. -/
def c10Row : List Cell := c3Row17 ++ [.str ""]

theorem stock_row_bad_cell17_skipped_witness :
    stockRowOk c10Row = none ∧
    parse_stock_chip_data { data := [c10Row] } "20240101" =
      .ok { date := "20240101", stocks := [], top_foreign_buy := [],
            top_foreign_sell := [], top_trust_buy := [], top_trust_sell := [] } :=
  stock_row_bad_cell17_skipped c10Row "20240101" (by decide)
    (fun n hn =>
      Except.noConfusion
        (show Except.error PyExn.valueError = Except.ok n from hn))

/-! ### Behaviour of the stock-detail lookup -/

/-- Demo records for the lookup claims. -/
def c7Stock (code : String) : StockChipRecord :=
  ⟨code, "", 0, 0, 0, 0, 0, 0, 0, 0⟩

def c7Res : StockListResult :=
  { date := "20240101", stocks := [c7Stock "2330", c7Stock "2317"],
    top_foreign_buy := [], top_foreign_sell := [],
    top_trust_buy := [], top_trust_sell := [] }

def c7DupA : StockChipRecord := ⟨"2330", "第一筆", 1, 0, 0, 0, 0, 0, 0, 0⟩
def c7DupB : StockChipRecord := ⟨"2330", "第二筆", 2, 0, 0, 0, 0, 0, 0, 0⟩

def c7DupRes : StockListResult :=
  { date := "20240101", stocks := [c7DupA, c7DupB],
    top_foreign_buy := [], top_foreign_sell := [],
    top_trust_buy := [], top_trust_sell := [] }

/-- C7: `get_stock_detail` performs a linear scan over `stocks`
comparing codes by exact string equality, returning the first matching
record and `none` when there is no match; on the demo list
`[2330, 2317]` the query `"2317"` returns the second record, `"9999"`
returns not-found, and with duplicate codes the earliest record wins. -/
theorem get_stock_detail_spec (res : StockListResult) (code : String) :
    get_stock_detail res code = res.stocks.find? (fun s => s.code == code) ∧
    (∀ rec, get_stock_detail res code = some rec → rec.code = code) ∧
    (get_stock_detail res code = none ↔ ∀ s ∈ res.stocks, s.code ≠ code) ∧
    (∀ pre rec post, res.stocks = pre ++ rec :: post →
      (∀ s ∈ pre, s.code ≠ code) → rec.code = code →
      get_stock_detail res code = some rec) ∧
    get_stock_detail c7Res "2317" = some (c7Stock "2317") ∧
    get_stock_detail c7Res "9999" = none ∧
    get_stock_detail c7DupRes "2330" = some c7DupA := by
  refine ⟨rfl, ?_, ?_, ?_, by rfl, by rfl, by rfl⟩
  · intro rec h
    have h2 : res.stocks.find? (fun s => s.code == code) = some rec := h
    have h3 := List.find?_some h2
    exact eq_of_beq h3
  · simp [get_stock_detail, List.find?_eq_none]
  · intro pre rec post hsplit hpre hrec
    unfold get_stock_detail
    rw [hsplit, List.find?_append]
    have hpre' : pre.find? (fun s => s.code == code) = none :=
      List.find?_eq_none.mpr (fun s hs => by simp [hpre s hs])
    rw [hpre', Option.none_or]
    exact List.find?_cons_of_pos _ (by simp [hrec])

/-- Witness for C7 at concrete inputs: the found record's code matches
the query, and a missing code yields not-found. -/
theorem get_stock_detail_spec_witness :
    (c7Stock "2317").code = "2317" ∧ get_stock_detail c7Res "9999" = none :=
  ⟨(get_stock_detail_spec c7Res "2317").2.1 (c7Stock "2317")
      (get_stock_detail_spec c7Res "2317").2.2.2.2.1,
   (get_stock_detail_spec c7Res "9999").2.2.2.2.2.1⟩

/-! ### Behaviour of the ranking views -/

/-- The sorted view is a permutation of the input. -/
lemma pySortedBy_perm (key : α → Int) (desc : Bool) (l : List α) :
    (pySortedBy key desc l).Perm l := by
  unfold pySortedBy
  have h := (List.perm_insertionSort (lexRel key desc) l.enum).map Prod.snd
  rwa [List.enum_map_snd] at h

/-- The sorted view is ordered by the key, non-increasing when `desc`
and non-decreasing otherwise. -/
lemma pySortedBy_pairwise (key : α → Int) (desc : Bool) (l : List α) :
    (pySortedBy key desc l).Pairwise
      (fun a b => if desc then key b ≤ key a else key a ≤ key b) := by
  unfold pySortedBy
  rw [List.pairwise_map]
  refine (List.sorted_insertionSort (lexRel key desc) l.enum).imp ?_
  intro a b hab
  cases desc with
  | true =>
    rcases hab with hlt | ⟨heq, _⟩
    · exact le_of_lt hlt
    · exact le_of_eq heq.symm
  | false =>
    rcases hab with hlt | ⟨heq, _⟩
    · exact le_of_lt hlt
    · exact le_of_eq heq

/-- Stability: restricted to any single key value, the sorted view is
the corresponding restriction of the input, in the input's order.  This
is exactly the stability guarantee of Python's `sorted` (with or
without `reverse=True`). -/
lemma pySortedBy_filter_eq (key : α → Int) (desc : Bool) (l : List α) (k : Int) :
    (pySortedBy key desc l).filter (fun a => key a == k) =
      l.filter (fun a => key a == k) := by
  haveI : IsAntisymm (Nat × α) (fun a b => a.1 < b.1) :=
    ⟨fun a b h1 h2 => absurd (lt_trans h1 h2) (lt_irrefl _)⟩
  unfold pySortedBy
  rw [List.filter_map]
  conv_rhs => rw [← List.enum_map_snd l, List.filter_map]
  refine congrArg _ ?_
  have hperm : ((List.insertionSort (lexRel key desc) l.enum).filter
        ((fun a => key a == k) ∘ Prod.snd)).Perm
      (l.enum.filter ((fun a => key a == k) ∘ Prod.snd)) :=
    (List.perm_insertionSort (lexRel key desc) l.enum).filter _
  have henum : l.enum.Pairwise (fun a b : Nat × α => a.1 < b.1) := by
    have h := List.pairwise_lt_range l.length
    rw [← List.enum_map_fst l] at h
    exact List.pairwise_map.mp h
  have hsorted2 : (l.enum.filter ((fun a => key a == k) ∘ Prod.snd)).Pairwise
      (fun a b : Nat × α => a.1 < b.1) :=
    List.Pairwise.filter _ henum
  have hle : ((List.insertionSort (lexRel key desc) l.enum).filter
      ((fun a => key a == k) ∘ Prod.snd)).Pairwise
      (fun a b : Nat × α => a.1 ≤ b.1) := by
    refine List.Pairwise.imp_of_mem ?_
      (List.Pairwise.filter _ (List.sorted_insertionSort (lexRel key desc) l.enum))
    intro a b ha hb hab
    have hak : key a.2 = k := beq_iff_eq.mp (List.mem_filter.mp ha).2
    have hbk : key b.2 = k := beq_iff_eq.mp (List.mem_filter.mp hb).2
    rcases hab with hlt | ⟨_, hle⟩
    · cases desc <;> rw [hak, hbk] at hlt <;> exact absurd hlt (lt_irrefl k)
    · exact hle
  have hnodup : ((List.insertionSort (lexRel key desc) l.enum).map Prod.fst).Nodup := by
    have hperm2 := (List.perm_insertionSort (lexRel key desc) l.enum).map Prod.fst
    rw [List.enum_map_fst] at hperm2
    exact hperm2.symm.nodup (List.nodup_range _)
  have hnodupf : (((List.insertionSort (lexRel key desc) l.enum).filter
      ((fun a => key a == k) ∘ Prod.snd)).map Prod.fst).Nodup :=
    ((List.filter_sublist _).map Prod.fst).nodup hnodup
  have hne : ((List.insertionSort (lexRel key desc) l.enum).filter
      ((fun a => key a == k) ∘ Prod.snd)).Pairwise
      (fun a b : Nat × α => a.1 ≠ b.1) :=
    List.pairwise_map.mp hnodupf
  have hsorted1 : ((List.insertionSort (lexRel key desc) l.enum).filter
      ((fun a => key a == k) ∘ Prod.snd)).Pairwise
      (fun a b : Nat × α => a.1 < b.1) :=
    (hle.and hne).imp (fun h => Nat.lt_of_le_of_ne h.1 h.2)
  exact List.eq_of_perm_of_sorted hperm hsorted1 hsorted2

/-- Everything required of one `sorted(...)[:10]` view: at most 10
elements, drawn from the input, ordered by the key in the requested
direction, and stable (each key class appears as a sublist of the
input's key class, preserving the input's relative order). -/
lemma topView_spec (key : α → Int) (desc : Bool) (l : List α) :
    ((pySortedBy key desc l).take 10).length ≤ 10 ∧
    (∀ x ∈ (pySortedBy key desc l).take 10, x ∈ l) ∧
    ((pySortedBy key desc l).take 10).Pairwise
      (fun a b => if desc then key b ≤ key a else key a ≤ key b) ∧
    ∀ k : Int,
      (((pySortedBy key desc l).take 10).filter (fun a => key a == k)).Sublist
        (l.filter (fun a => key a == k)) := by
  refine ⟨List.length_take_le _ _, ?_, ?_, ?_⟩
  · intro x hx
    exact (pySortedBy_perm key desc l).subset ((List.take_sublist _ _).subset hx)
  · exact List.Pairwise.sublist (List.take_sublist _ _)
      (pySortedBy_pairwise key desc l)
  · intro k
    have h := (List.take_sublist 10 (pySortedBy key desc l)).filter
      (fun a => key a == k)
    rwa [pySortedBy_filter_eq key desc l k] at h

/-- C4: in every parsed `StockListResult`, each `top_*` sequence has at
most 10 elements drawn from `stocks`; the buy views are non-increasing
and the sell views non-decreasing in their key; and ties retain the
relative order of the original `stocks` sequence (each key class of a
view is a sublist of the corresponding key class of `stocks`). -/
theorem stock_top_lists_spec (data : Doc) (date_str : String)
    (res : StockListResult)
    (h : parse_stock_chip_data data date_str = .ok res) :
    (res.top_foreign_buy.length ≤ 10 ∧
      (∀ x ∈ res.top_foreign_buy, x ∈ res.stocks) ∧
      res.top_foreign_buy.Pairwise (fun a b => b.foreign_diff ≤ a.foreign_diff) ∧
      ∀ k : Int, (res.top_foreign_buy.filter (fun s => s.foreign_diff == k)).Sublist
        (res.stocks.filter (fun s => s.foreign_diff == k))) ∧
    (res.top_foreign_sell.length ≤ 10 ∧
      (∀ x ∈ res.top_foreign_sell, x ∈ res.stocks) ∧
      res.top_foreign_sell.Pairwise (fun a b => a.foreign_diff ≤ b.foreign_diff) ∧
      ∀ k : Int, (res.top_foreign_sell.filter (fun s => s.foreign_diff == k)).Sublist
        (res.stocks.filter (fun s => s.foreign_diff == k))) ∧
    (res.top_trust_buy.length ≤ 10 ∧
      (∀ x ∈ res.top_trust_buy, x ∈ res.stocks) ∧
      res.top_trust_buy.Pairwise (fun a b => b.trust_diff ≤ a.trust_diff) ∧
      ∀ k : Int, (res.top_trust_buy.filter (fun s => s.trust_diff == k)).Sublist
        (res.stocks.filter (fun s => s.trust_diff == k))) ∧
    (res.top_trust_sell.length ≤ 10 ∧
      (∀ x ∈ res.top_trust_sell, x ∈ res.stocks) ∧
      res.top_trust_sell.Pairwise (fun a b => a.trust_diff ≤ b.trust_diff) ∧
      ∀ k : Int, (res.top_trust_sell.filter (fun s => s.trust_diff == k)).Sublist
        (res.stocks.filter (fun s => s.trust_diff == k))) := by
  rw [parse_stock_chip_data_eq] at h
  cases h
  obtain ⟨l1, m1, p1, s1⟩ :=
    topView_spec (fun x : StockChipRecord => x.foreign_diff) true
      (data.data.filterMap stockRowOk)
  obtain ⟨l2, m2, p2, s2⟩ :=
    topView_spec (fun x : StockChipRecord => x.foreign_diff) false
      (data.data.filterMap stockRowOk)
  obtain ⟨l3, m3, p3, s3⟩ :=
    topView_spec (fun x : StockChipRecord => x.trust_diff) true
      (data.data.filterMap stockRowOk)
  obtain ⟨l4, m4, p4, s4⟩ :=
    topView_spec (fun x : StockChipRecord => x.trust_diff) false
      (data.data.filterMap stockRowOk)
  exact ⟨⟨l1, m1, p1, s1⟩, ⟨l2, m2, p2, s2⟩, ⟨l3, m3, p3, s3⟩, ⟨l4, m4, p4, s4⟩⟩

/-- Witness document for C4: rows A and C tie on `foreign_diff = 3`
(A first in document order), B leads with 5. -/
def c4Row (code f t : String) : List Cell :=
  [.str code, .str "名", .str "1", .str "1", .str f, .null, .null, .null,
   .str "1", .str "1", .str t, .str "0", .null, .null, .str "0", .null, .null]

def c4Doc : Doc :=
  { data := [c4Row "A" "3" "1", c4Row "B" "5" "1", c4Row "C" "3" "2"] }

def c4Res : StockListResult :=
  match parse_stock_chip_data c4Doc "20240101" with
  | .ok r => r
  | .error _ => ⟨"", [], [], [], [], []⟩

theorem stock_top_lists_spec_witness :
    c4Res.top_foreign_buy.length ≤ 10 ∧
    (c4Res.top_foreign_buy.filter (fun s => s.foreign_diff == 3)).Sublist
      (c4Res.stocks.filter (fun s => s.foreign_diff == 3)) ∧
    c4Res.top_trust_sell.Pairwise (fun a b => a.trust_diff ≤ b.trust_diff) :=
  ⟨(stock_top_lists_spec c4Doc "20240101" c4Res (by rfl)).1.1,
   (stock_top_lists_spec c4Doc "20240101" c4Res (by rfl)).1.2.2.2 3,
   (stock_top_lists_spec c4Doc "20240101" c4Res (by rfl)).2.2.2.2.2.1⟩

end TWSE
